import Mathlib

/-!
Verification of the cc-status-line configuration / status pipeline.

Shallow embedding of the Python sources:
  * `src/config.py`  — layered YAML config merge, project identity;
  * `src/detection.py` — server liveness detection;
  * `src/render.py`  — status line rendering;
  * `src/core.py`    — aggregation engine;
  * `src/git.py`     — repository status collection.

Python dictionaries are modelled as insertion-ordered association lists
(`List (String × Yaml)`); YAML scalar/sequence/mapping values are the
inductive `Yaml`.  Subprocess calls and the filesystem are modelled as
explicit oracle parameters.  Python `str` values that the proofs must
take apart are modelled as `List Char`.
-/

namespace CCSL

/-- A YAML value as produced by `yaml.safe_load`: scalar (string, int,
bool, null), sequence, or mapping.  Mappings are insertion-ordered
association lists, matching Python `dict` order semantics. -/
inductive Yaml where
  | str (v : String)
  | int (v : Int)
  | bool (v : Bool)
  | null
  | seq (items : List Yaml)
  | map (entries : List (String × Yaml))
deriving Repr

/-- `d[key]` / `key in d` for a Python dict modelled as an assoc list:
find the value of the first entry with the given key. -/
def lookupY : List (String × Yaml) → String → Option Yaml
  | [], _ => none
  | (k, v) :: rest, key => if k = key then some v else lookupY rest key

/-- `d[key] = v` on a Python dict: overwrite in place if the key is
present (keeping its position), otherwise append at the end. -/
def setKey : List (String × Yaml) → String → Yaml → List (String × Yaml)
  | [], key, v => [(key, v)]
  | (k, w) :: rest, key, v =>
    if k = key then (k, v) :: rest else (k, w) :: setKey rest key v

/-- Keys of a dict, in order. -/
def keysOf (d : List (String × Yaml)) : List String := d.map Prod.fst

/-- No duplicate keys (true of every Python dict). -/
def keysUnique : List String → Bool
  | [] => true
  | k :: rest => if k ∈ rest then false else keysUnique rest

/-- `True` iff the value is a mapping (`isinstance(value, dict)`). -/
def Yaml.isMap : Yaml → Bool
  | .map _ => true
  | _ => false

mutual
/-- `ConfigManager._deep_merge` (src/config.py lines 147–157): start
from a copy of `base`, then for each key of `override` in order, store
`result[key] = value`, recursing when both the current value and the
override value are dicts (`mergeOne`), otherwise storing the override
value wholesale. -/
def deep_merge (base : List (String × Yaml)) :
    List (String × Yaml) → List (String × Yaml)
  | [] => base
  | (key, value) :: rest =>
    deep_merge (setKey base key (mergeOne (lookupY base key) value)) rest
termination_by o => sizeOf o
decreasing_by
  all_goals simp_wf
  all_goals omega

/-- The value stored by one `_deep_merge` loop iteration: the recursive
merge when both the current value and the override value are dicts,
otherwise the override value unchanged (sequences and scalars are
replaced wholesale). -/
def mergeOne : Option Yaml → Yaml → Yaml
  | some (Yaml.map m1), Yaml.map m2 => Yaml.map (deep_merge m1 m2)
  | _, value => value
termination_by _ v => sizeOf v
decreasing_by
  all_goals simp_wf
end

theorem deep_merge_nil (base : List (String × Yaml)) : deep_merge base [] = base := by
  rw [deep_merge]

theorem deep_merge_cons (base : List (String × Yaml)) (key : String) (value : Yaml)
    (rest : List (String × Yaml)) :
    deep_merge base ((key, value) :: rest) =
      deep_merge (setKey base key (mergeOne (lookupY base key) value)) rest := by
  rw [deep_merge]

theorem mergeOne_map_map (m1 m2 : List (String × Yaml)) :
    mergeOne (some (Yaml.map m1)) (Yaml.map m2) = Yaml.map (deep_merge m1 m2) := by
  rw [mergeOne]

theorem mergeOne_not_both (r : Option Yaml) (value : Yaml)
    (h : value.isMap = false ∨ ∀ m1, r ≠ some (Yaml.map m1)) :
    mergeOne r value = value := by
  rw [mergeOne.eq_def]
  split
  · rename_i m1 m2
    rcases h with h | h
    · simp [Yaml.isMap] at h
    · exact absurd rfl (h m1)
  · rfl

/-- The per-key result of merging, as a function of the two sides'
values at that key. -/
def mergeVal : Option Yaml → Option Yaml → Option Yaml
  | r, none => r
  | r, some v => some (mergeOne r v)

/-- Well-formedness of a YAML value as loaded from Python: every mapping
(at any depth) has pairwise-distinct keys. -/
def Yaml.wf : Yaml → Bool
  | .map es => keysUnique (keysOf es) && wfEntries es
  | .seq items => wfList items
  | _ => true
where
  /-- All entry values are well-formed. -/
  wfEntries : List (String × Yaml) → Bool
    | [] => true
    | (_, v) :: rest => v.wf && wfEntries rest
  /-- All sequence items are well-formed. -/
  wfList : List Yaml → Bool
    | [] => true
    | v :: rest => v.wf && wfList rest

/-- Follow a path of keys down through nested mappings. -/
def getPath : Yaml → List String → Option Yaml
  | y, [] => some y
  | .map es, key :: rest =>
    match lookupY es key with
    | some v => getPath v rest
    | none => none
  | _, _ :: _ => none

/-! Basic association-list lemmas. -/

theorem lookupY_setKey_self (d : List (String × Yaml)) (key : String) (v : Yaml) :
    lookupY (setKey d key v) key = some v := by
  induction d with
  | nil => simp [setKey, lookupY]
  | cons hd tl ih =>
    obtain ⟨k, w⟩ := hd
    by_cases h : k = key
    · simp [setKey, h, lookupY]
    · simp [setKey, h, lookupY, ih]

theorem lookupY_setKey_ne (d : List (String × Yaml)) (key k : String) (v : Yaml)
    (h : k ≠ key) : lookupY (setKey d key v) k = lookupY d k := by
  induction d with
  | nil => simp only [setKey, lookupY, if_neg (Ne.symm h)]
  | cons hd tl ih =>
    obtain ⟨k', w⟩ := hd
    by_cases h' : k' = key
    · subst h'
      simp only [setKey, if_pos rfl, lookupY, if_neg (Ne.symm h)]
    · simp only [setKey, if_neg h', lookupY]
      by_cases h'' : k' = k
      · simp only [if_pos h'']
      · simp only [if_neg h'', ih]

theorem mergeVal_none (r : Option Yaml) : mergeVal r none = r := rfl

theorem mergeVal_some (r : Option Yaml) (v : Yaml) :
    mergeVal r (some v) = some (mergeOne r v) := rfl

theorem lookupY_none_of_not_mem (d : List (String × Yaml)) (k : String)
    (h : k ∉ keysOf d) : lookupY d k = none := by
  induction d with
  | nil => rfl
  | cons hd tl ih =>
    obtain ⟨k', v⟩ := hd
    simp only [keysOf, List.map_cons, List.mem_cons, not_or] at h
    simp only [lookupY, if_neg (Ne.symm h.1)]
    exact ih (by simpa [keysOf] using h.2)

/-- Per-key characterization of `_deep_merge`: the merged dict's value
at each key is `mergeVal` of the two sides' values at that key. -/
theorem lookupY_deep_merge (o : List (String × Yaml)) (b : List (String × Yaml))
    (k : String) (ho : keysUnique (keysOf o) = true) :
    lookupY (deep_merge b o) k = mergeVal (lookupY b k) (lookupY o k) := by
  induction o generalizing b with
  | nil => simp [deep_merge_nil, lookupY, mergeVal_none]
  | cons hd rest ih =>
    obtain ⟨k', v⟩ := hd
    simp only [keysOf, List.map_cons, keysUnique] at ho
    by_cases hmem : k' ∈ rest.map Prod.fst
    · simp [hmem] at ho
    · rw [if_neg hmem] at ho
      rw [deep_merge_cons, ih _ (by simpa [keysOf] using ho)]
      by_cases hk : k = k'
      · subst hk
        rw [lookupY_none_of_not_mem rest k (by simpa [keysOf] using hmem), mergeVal_none,
          lookupY_setKey_self]
        simp [lookupY, mergeVal_some]
      · rw [lookupY_setKey_ne _ _ _ _ hk]
        simp only [lookupY, if_neg (Ne.symm hk)]

theorem wf_map_elim (es : List (String × Yaml)) (h : (Yaml.map es).wf = true) :
    keysUnique (keysOf es) = true ∧ Yaml.wf.wfEntries es = true := by
  simpa [Yaml.wf, Bool.and_eq_true] using h

theorem wfEntries_lookup (es : List (String × Yaml)) (k : String) (v : Yaml)
    (hwf : Yaml.wf.wfEntries es = true) (hl : lookupY es k = some v) : v.wf = true := by
  induction es with
  | nil => simp [lookupY] at hl
  | cons hd tl ih =>
    obtain ⟨k', w⟩ := hd
    simp only [Yaml.wf.wfEntries, Bool.and_eq_true] at hwf
    simp only [lookupY] at hl
    by_cases hk : k' = k
    · rw [if_pos hk] at hl
      cases hl
      exact hwf.1
    · rw [if_neg hk] at hl
      exact ih hwf.2 hl

theorem getPath_map_cons (es : List (String × Yaml)) (k : String) (rest : List String) :
    getPath (Yaml.map es) (k :: rest) =
      match lookupY es k with
      | some v => getPath v rest
      | none => none := rfl

/-- Leaf-path resolution for a single two-layer merge: a non-mapping
value found in the merged tree at some key path comes from the override
layer if the override defines that path, otherwise from the base. -/
theorem getPath_deep_merge (p : List String) (b o : List (String × Yaml)) (v : Yaml)
    (ho : (Yaml.map o).wf = true)
    (hp : getPath (Yaml.map (deep_merge b o)) p = some v) (hv : v.isMap = false) :
    getPath (Yaml.map o) p = some v ∨
      (getPath (Yaml.map o) p = none ∧ getPath (Yaml.map b) p = some v) := by
  induction p generalizing b o with
  | nil =>
    simp only [getPath, Option.some.injEq] at hp
    subst hp
    simp [Yaml.isMap] at hv
  | cons k rest ih =>
    obtain ⟨ho1, ho2⟩ := wf_map_elim o ho
    rw [getPath_map_cons, lookupY_deep_merge o b k ho1] at hp
    rcases hok : lookupY o k with _ | w
    · rw [hok, mergeVal_none] at hp
      right
      constructor
      · rw [getPath_map_cons, hok]
      · rw [getPath_map_cons]
        exact hp
    · rw [hok, mergeVal_some] at hp
      have how : w.wf = true := wfEntries_lookup o k w ho2 hok
      rcases hbk : lookupY b k with _ | u
      · rw [hbk] at hp
        rw [mergeOne_not_both none w (Or.inr (by intro m1 h; cases h))] at hp
        left
        rw [getPath_map_cons, hok]
        exact hp
      · rw [hbk] at hp
        cases hw : w with
        | map m2 =>
          cases hu : u with
          | map m1 =>
            subst hw hu
            rw [mergeOne_map_map] at hp
            have hm2wf : (Yaml.map m2).wf = true := how
            rcases ih m1 m2 hm2wf hp with h | ⟨h1, h2⟩
            · left
              rw [getPath_map_cons, hok]
              exact h
            · right
              constructor
              · rw [getPath_map_cons, hok]
                exact h1
              · rw [getPath_map_cons, hbk]
                exact h2
          | str s =>
            subst hw hu
            rw [mergeOne_not_both _ _ (Or.inr (by intro m1 h; simp at h))] at hp
            left; rw [getPath_map_cons, hok]; exact hp
          | int n =>
            subst hw hu
            rw [mergeOne_not_both _ _ (Or.inr (by intro m1 h; simp at h))] at hp
            left; rw [getPath_map_cons, hok]; exact hp
          | bool bb =>
            subst hw hu
            rw [mergeOne_not_both _ _ (Or.inr (by intro m1 h; simp at h))] at hp
            left; rw [getPath_map_cons, hok]; exact hp
          | null =>
            subst hw hu
            rw [mergeOne_not_both _ _ (Or.inr (by intro m1 h; simp at h))] at hp
            left; rw [getPath_map_cons, hok]; exact hp
          | seq items =>
            subst hw hu
            rw [mergeOne_not_both _ _ (Or.inr (by intro m1 h; simp at h))] at hp
            left; rw [getPath_map_cons, hok]; exact hp
        | _ =>
          subst hw
          rw [mergeOne_not_both _ _ (Or.inl (by simp [Yaml.isMap]))] at hp
          left
          rw [getPath_map_cons, hok]
          exact hp

/-- C1: Layered config merge resolves every leaf key to the
highest-precedence layer.  For all mappings `a`, `b`, `c` (merged in
that order, as `get_config` merges defaults, global, project and local
layers), (1) every non-mapping value at a key path of the merged tree is
the value of the highest-precedence layer that defines that path;
(2) a key absent from both override layers retains the base layer's
value; (3) the merge recurses exactly when both sides are mappings at
the same key; and (4) sequences and scalars are replaced wholesale. -/
theorem claim_C1_deep_merge_layered (a b c : List (String × Yaml))
    (hb : (Yaml.map b).wf = true) (hc : (Yaml.map c).wf = true) :
    (∀ p v, getPath (Yaml.map (deep_merge (deep_merge a b) c)) p = some v →
        v.isMap = false →
        getPath (Yaml.map c) p = some v ∨
        (getPath (Yaml.map c) p = none ∧ getPath (Yaml.map b) p = some v) ∨
        (getPath (Yaml.map c) p = none ∧ getPath (Yaml.map b) p = none ∧
          getPath (Yaml.map a) p = some v)) ∧
    (∀ k, lookupY b k = none → lookupY c k = none →
        lookupY (deep_merge (deep_merge a b) c) k = lookupY a k) ∧
    (∀ k m1 m2, lookupY (deep_merge a b) k = some (Yaml.map m1) →
        lookupY c k = some (Yaml.map m2) →
        lookupY (deep_merge (deep_merge a b) c) k = some (Yaml.map (deep_merge m1 m2))) ∧
    (∀ k w, lookupY c k = some w → w.isMap = false →
        lookupY (deep_merge (deep_merge a b) c) k = some w) := by
  obtain ⟨hb1, _⟩ := wf_map_elim b hb
  obtain ⟨hc1, _⟩ := wf_map_elim c hc
  refine ⟨?_, ?_, ?_, ?_⟩
  · intro p v hp hv
    rcases getPath_deep_merge p (deep_merge a b) c v hc hp hv with h | ⟨h1, h2⟩
    · exact Or.inl h
    · rcases getPath_deep_merge p a b v hb h2 hv with h | ⟨h3, h4⟩
      · exact Or.inr (Or.inl ⟨h1, h⟩)
      · exact Or.inr (Or.inr ⟨h1, h3, h4⟩)
  · intro k hbk hck
    rw [lookupY_deep_merge c _ k hc1, hck, mergeVal_none,
      lookupY_deep_merge b a k hb1, hbk, mergeVal_none]
  · intro k m1 m2 hab hck
    rw [lookupY_deep_merge c _ k hc1, hck, mergeVal_some, hab, mergeOne_map_map]
  · intro k w hck hw
    rw [lookupY_deep_merge c _ k hc1, hck, mergeVal_some,
      mergeOne_not_both _ _ (Or.inl hw)]

/-- Witness for C1 at concrete layers: base
`{s: {x: 1, z: 0}, w: 7}`, middle `{s: {x: 2}}`, top `{t: "c"}`; the
leaf path `s.x` resolves to the middle layer's value `2`. -/
theorem claim_C1_deep_merge_layered_witness :
    getPath (Yaml.map [("t", Yaml.str "c")]) ["s", "x"] = some (Yaml.int 2) ∨
    (getPath (Yaml.map [("t", Yaml.str "c")]) ["s", "x"] = none ∧
      getPath (Yaml.map [("s", Yaml.map [("x", Yaml.int 2)])]) ["s", "x"] =
        some (Yaml.int 2)) ∨
    (getPath (Yaml.map [("t", Yaml.str "c")]) ["s", "x"] = none ∧
      getPath (Yaml.map [("s", Yaml.map [("x", Yaml.int 2)])]) ["s", "x"] = none ∧
      getPath (Yaml.map [("s", Yaml.map [("x", Yaml.int 1), ("z", Yaml.int 0)]),
        ("w", Yaml.int 7)]) ["s", "x"] = some (Yaml.int 2)) := by
  exact (claim_C1_deep_merge_layered
      [("s", Yaml.map [("x", Yaml.int 1), ("z", Yaml.int 0)]), ("w", Yaml.int 7)]
      [("s", Yaml.map [("x", Yaml.int 2)])]
      [("t", Yaml.str "c")]
      (by decide) (by decide)).1 ["s", "x"] (Yaml.int 2)
    (by simp [deep_merge, mergeOne, setKey, lookupY, getPath]) (by decide)

/-! ## save_project_config (src/config.py lines 179–189) -/

/-- `ConfigManager.save_project_config` acting on the caller's config
dict: the statement `config["updated_at"] = time.strftime(...)` mutates
the mapping in place; the timestamp string is a parameter here.  The
subsequent YAML dump to the project file is an external side effect
outside this model. -/
def save_project_config (config : List (String × Yaml)) (timestamp : String) :
    List (String × Yaml) :=
  setKey config "updated_at" (Yaml.str timestamp)

theorem keysOf_setKey_mem (d : List (String × Yaml)) (key : String) (v : Yaml)
    (h : key ∈ keysOf d) : keysOf (setKey d key v) = keysOf d := by
  induction d with
  | nil => simp [keysOf] at h
  | cons hd tl ih =>
    obtain ⟨k', w⟩ := hd
    by_cases hk : k' = key
    · simp [setKey, hk, keysOf]
    · simp only [keysOf, List.map_cons, List.mem_cons] at h
      rcases h with h | h
      · exact absurd h.symm hk
      · have hih := ih (by simpa [keysOf] using h)
        simp only [keysOf] at hih
        simp [setKey, hk, keysOf, hih]

theorem keysOf_setKey_not_mem (d : List (String × Yaml)) (key : String) (v : Yaml)
    (h : key ∉ keysOf d) : keysOf (setKey d key v) = keysOf d ++ [key] := by
  induction d with
  | nil => simp [setKey, keysOf]
  | cons hd tl ih =>
    obtain ⟨k', w⟩ := hd
    simp only [keysOf, List.map_cons, List.mem_cons, not_or] at h
    have hih := ih (by simpa [keysOf] using h.2)
    simp only [keysOf] at hih
    simp [setKey, Ne.symm h.1, keysOf, hih]

/-- C10: after `save_project_config`, the caller-visible mapping has its
"updated_at" key set to the save timestamp (overwritten in place if
present, appended if absent), and every other key is bound exactly as
before. -/
theorem claim_C10_save_project_config (config : List (String × Yaml)) (timestamp : String) :
    lookupY (save_project_config config timestamp) "updated_at" =
      some (Yaml.str timestamp) ∧
    (∀ k, k ≠ "updated_at" →
      lookupY (save_project_config config timestamp) k = lookupY config k) ∧
    ("updated_at" ∈ keysOf config →
      keysOf (save_project_config config timestamp) = keysOf config) ∧
    ("updated_at" ∉ keysOf config →
      keysOf (save_project_config config timestamp) = keysOf config ++ ["updated_at"]) :=
  ⟨lookupY_setKey_self config "updated_at" (Yaml.str timestamp),
   fun k hk => lookupY_setKey_ne config "updated_at" k (Yaml.str timestamp) hk,
   fun h => keysOf_setKey_mem config "updated_at" (Yaml.str timestamp) h,
   fun h => keysOf_setKey_not_mem config "updated_at" (Yaml.str timestamp) h⟩

/-- Witness for C10 at a concrete config `{name: "p"}` and timestamp. -/
theorem claim_C10_save_project_config_witness :
    lookupY (save_project_config [("name", Yaml.str "p")] "2024-01-01 00:00:00")
      "updated_at" = some (Yaml.str "2024-01-01 00:00:00") ∧
    lookupY (save_project_config [("name", Yaml.str "p")] "2024-01-01 00:00:00")
      "name" = some (Yaml.str "p") := by
  have h := claim_C10_save_project_config [("name", Yaml.str "p")] "2024-01-01 00:00:00"
  refine ⟨h.1, ?_⟩
  rw [h.2.1 "name" (by decide)]
  rfl

/-! ## Server detection (src/detection.py lines 173–186) -/

/-- A server config entry as consumed by `ServerDetector.detect_servers`:
name, candidate ports in declared order, display emoji, and the optional
"enabled" key.  `enabled = none` models absence of the key from the
dict, in which case the source's `config.get("enabled", True)` yields
`True`. -/
structure ServerConfig where
  name : String
  ports : List Nat
  emoji : String
  enabled : Option Bool

/-- One detected server entry
`{"name": ..., "port": ..., "emoji": ...}`. -/
structure DetectedServer where
  name : String
  port : Nat
  emoji : String

/-- `ServerDetector.detect_servers`, with the subprocess port probe
`_is_port_active` abstracted as the oracle `active`: skip configs whose
enabled value is falsy (defaulting to enabled when the key is absent);
for each remaining config scan its candidate ports in declared order and
emit one entry for the first active port, then stop scanning that
config's ports. -/
def detect_servers (active : Nat → Bool) : List ServerConfig → List DetectedServer
  | [] => []
  | c :: rest =>
    if c.enabled.getD true = false then detect_servers active rest
    else
      match c.ports.find? active with
      | some p => ⟨c.name, p, c.emoji⟩ :: detect_servers active rest
      | none => detect_servers active rest

/-- C3: for every port-activity assignment and input list,
`detect_servers` is the per-config filter-map that skips disabled
configs and emits at most one entry per config, keyed by the first
active candidate port in declared order.  Consequently each config
contributes at most one DetectedServer (even if several of its ports
are active), the output preserves input config order, and a config with
enabled set to false is absent from the results. -/
theorem claim_C3_detect_servers (active : Nat → Bool) (configs : List ServerConfig) :
    detect_servers active configs =
      configs.filterMap (fun c =>
        if c.enabled.getD true = false then none
        else (c.ports.find? active).map fun p => DetectedServer.mk c.name p c.emoji) ∧
    (detect_servers active configs).length ≤ configs.length := by
  have hmain : detect_servers active configs =
      configs.filterMap (fun c =>
        if c.enabled.getD true = false then none
        else (c.ports.find? active).map fun p => DetectedServer.mk c.name p c.emoji) := by
    induction configs with
    | nil => rfl
    | cons c rest ih =>
      by_cases hen : c.enabled.getD true = false
      · simp [detect_servers, hen, List.filterMap_cons, ih]
      · rcases hf : c.ports.find? active with _ | p
        · simp [detect_servers, hen, hf, List.filterMap_cons, ih]
        · simp [detect_servers, hen, hf, List.filterMap_cons, ih]
  refine ⟨hmain, ?_⟩
  rw [hmain]
  exact List.length_filterMap_le _ _

/-- C9: a server config with no "enabled" key at all is treated exactly
as enabled and is probed; a config is skipped without emitting anything
precisely when its enabled key is present and falsy; any config whose
enabled value is not the falsy one contributes the first active
candidate port. -/
theorem claim_C9_enabled_default (active : Nat → Bool) (c : ServerConfig)
    (rest : List ServerConfig) :
    (c.enabled = none →
      detect_servers active (c :: rest) =
        detect_servers active ({ c with enabled := some true } :: rest)) ∧
    (c.enabled = some false →
      detect_servers active (c :: rest) = detect_servers active rest) ∧
    (c.enabled ≠ some false →
      detect_servers active (c :: rest) =
        ((c.ports.find? active).map fun p => DetectedServer.mk c.name p c.emoji).toList
          ++ detect_servers active rest) := by
  refine ⟨?_, ?_, ?_⟩
  · intro h
    simp [detect_servers, h]
  · intro h
    simp [detect_servers, h]
  · intro h
    have hen : c.enabled.getD true = true := by
      rcases he : c.enabled with _ | b
      · rfl
      · cases b
        · exact absurd he h
        · rfl
    rcases hf : c.ports.find? active with _ | p
    · simp [detect_servers, hen, hf]
    · simp [detect_servers, hen, hf]

/-- Witness for C9: a Flask-like config with the enabled key absent is
probed and detected on its first active port. -/
theorem claim_C9_enabled_default_witness :
    detect_servers (fun p => p == 5000)
        [ServerConfig.mk "Flask" [5000, 5001] "F" none] =
      detect_servers (fun p => p == 5000)
        [ServerConfig.mk "Flask" [5000, 5001] "F" (some true)] ∧
    detect_servers (fun p => p == 5000)
        [ServerConfig.mk "Flask" [5000, 5001] "F" none] =
      [DetectedServer.mk "Flask" 5000 "F"] := by
  have h := claim_C9_enabled_default (fun p => p == 5000)
    (ServerConfig.mk "Flask" [5000, 5001] "F" none) []
  refine ⟨h.1 rfl, ?_⟩
  rw [h.2.2 (by simp)]
  rfl

/-! ## Rendering (src/render.py)

Python strings that the proofs take apart are modelled as char lists;
a Lean `String` literal's underlying list is written `lit.data`. -/

/-- `RepoStatus` (src/git.py lines 11–19).  `behind` is an `Int` (a
Python `int`); that it is in fact always non-negative is claim C7. -/
structure RepoStatus where
  name : String
  branch : String
  behind : Int
  has_changes : Bool
  path : String

/-- The ANSI color table `StatusLineRenderer.COLORS`
(src/render.py lines 14–31). -/
def COLORS : List (String × String) :=
  [("reset", "\x1b[0m"), ("green", "\x1b[32m"), ("yellow", "\x1b[33m"),
   ("red", "\x1b[31m"), ("blue", "\x1b[34m"), ("magenta", "\x1b[35m"),
   ("cyan", "\x1b[36m"), ("white", "\x1b[37m"),
   ("bright_green", "\x1b[92m"), ("bright_yellow", "\x1b[93m"),
   ("bright_red", "\x1b[91m"), ("bright_blue", "\x1b[94m"),
   ("bright_magenta", "\x1b[95m"), ("bright_cyan", "\x1b[96m"),
   ("dim", "\x1b[2m")]

/-- Dict lookup in the color table (`color in self.COLORS`,
`self.COLORS[color]`). -/
def lookupStr : List (String × String) → String → Option String
  | [], _ => none
  | (k, v) :: rest, key => if k = key then some v else lookupStr rest key

/-- `StatusLineRenderer._colorize` (src/render.py lines 40–44): return
the text unchanged when colors are disabled or the color name is
unknown, otherwise wrap it in the color's escape code and the reset
code. -/
def colorize (use_colors : Bool) (text : List Char) (color : String) : List Char :=
  match use_colors, lookupStr COLORS color with
  | true, some code => code.data ++ text ++ ("\x1b[0m").data
  | _, _ => text

/-- Decimal digit character of `n % 10`, as produced by Python `str`. -/
def decDigit (n : Nat) : Char :=
  match n % 10 with
  | 0 => '0' | 1 => '1' | 2 => '2' | 3 => '3' | 4 => '4'
  | 5 => '5' | 6 => '6' | 7 => '7' | 8 => '8' | _ => '9'

/-- Decimal rendering of a natural number (`str(n)` for `n >= 0`),
with a structural fuel argument (`fuel > n` suffices). -/
def natCharsAux : Nat → Nat → List Char
  | 0, _ => []
  | fuel + 1, n =>
    if n < 10 then [decDigit n] else natCharsAux fuel (n / 10) ++ [decDigit n]

/-- `str(n)` for a natural number. -/
def natChars (n : Nat) : List Char := natCharsAux (n + 1) n

/-- `str(i)` for a Python `int`: a leading minus sign for negatives,
then the decimal digits. -/
def intChars (i : Int) : List Char :=
  if i < 0 then '-' :: natChars i.natAbs else natChars i.toNat

/-- Char-list version of Python `startswith`. -/
def startsWithChars : List Char → List Char → Bool
  | _, [] => true
  | [], _ :: _ => false
  | c :: cs, p :: ps => c == p && startsWithChars cs ps

/-- `StatusLineRenderer._get_branch_color` (src/render.py lines
98–110): exact match for main/master, prefix families for
feature/fix/dev/release branches, default cyan. -/
def get_branch_color (branch_name : List Char) : String :=
  if branch_name = "main".data ∨ branch_name = "master".data then "bright_green"
  else if startsWithChars branch_name "feat".data
      || startsWithChars branch_name "feature".data then "bright_blue"
  else if startsWithChars branch_name "fix".data
      || startsWithChars branch_name "hotfix".data
      || startsWithChars branch_name "bugfix".data then "bright_red"
  else if startsWithChars branch_name "dev".data
      || startsWithChars branch_name "develop".data then "bright_yellow"
  else if startsWithChars branch_name "release".data then "bright_magenta"
  else "cyan"

/-- `StatusLineRenderer._get_status_emoji` (src/render.py lines
112–119): changes marker first, then far/slightly-behind, then clean. -/
def get_status_emoji (behind : Int) (has_changes : Bool) : String :=
  if has_changes then "🟡"
  else if behind > 0 then (if behind > 5 then "🔴" else "⚠️")
  else "✅"

/-- Python `sep.join(parts)`. -/
def joinSep (sep : List Char) : List (List Char) → List Char
  | [] => []
  | [x] => x
  | x :: xs => x ++ sep ++ joinSep sep xs

/-- The per-repository fragment built inside
`StatusLineRenderer._render_repositories` (src/render.py lines 73–83). -/
def render_repo_part (use_colors : Bool) (repo : RepoStatus) : List Char :=
  (get_status_emoji repo.behind repo.has_changes).data
    ++ colorize use_colors repo.name.data "bright_cyan"
    ++ [':']
    ++ colorize use_colors repo.branch.data (get_branch_color repo.branch.data)
    ++ (if repo.behind > 0 then colorize use_colors ('-' :: intChars repo.behind) "red" else [])
    ++ (if repo.has_changes then colorize use_colors ['*'] "yellow" else [])

/-- `StatusLineRenderer._render_repositories` (src/render.py lines
69–85). -/
def render_repositories (use_colors : Bool) (repos : List RepoStatus) : List Char :=
  "📂 Repos ▶ ".data ++ joinSep " │ ".data (repos.map (render_repo_part use_colors))

/-- The per-server fragment built inside
`StatusLineRenderer._render_servers` (src/render.py lines 91–94). -/
def render_server_part (use_colors : Bool) (s : DetectedServer) : List Char :=
  s.emoji.data
    ++ colorize use_colors s.name.data "bright_green"
    ++ [':']
    ++ colorize use_colors (natChars s.port) "bright_yellow"

/-- `StatusLineRenderer._render_servers` (src/render.py lines 87–96). -/
def render_servers (use_colors : Bool) (servers : List DetectedServer) : List Char :=
  "🖥️ Servers ▶ ".data ++ joinSep " │ ".data (servers.map (render_server_part use_colors))

/-- The single-line branch's final step (`if parts:
lines.append(" │ ".join(parts))`). -/
def joinedLine (parts : List (List Char)) : List (List Char) :=
  if parts.isEmpty then [] else [joinSep " │ ".data parts]

/-- `StatusLineRenderer.render` (src/render.py lines 46–67): in
multiline mode one line per non-empty collection; in single-line mode
one joined count line, omitted when both collections are empty. -/
def render (use_colors multiline : Bool) (repos : List RepoStatus)
    (servers : List DetectedServer) : List (List Char) :=
  if multiline then
    (if repos.isEmpty then [] else [render_repositories use_colors repos])
      ++ (if servers.isEmpty then [] else [render_servers use_colors servers])
  else
    joinedLine
      ((if repos.isEmpty then []
        else ["📂 ".data ++ natChars repos.length ++ " repos".data])
        ++ (if servers.isEmpty then []
            else ["🖥️ ".data ++ natChars servers.length ++ " servers".data]))

/-! ## ANSI escape stripping (modelled from the spec's "stripping color
escape codes": remove every maximal segment that starts with ESC-[ and
runs up to and including the next 'm'; the repository itself contains no
stripper, it is the reference function of the colorless-content-stability
property). -/

/-- State machine for the stripper; the Bool is "currently inside an
escape sequence". -/
def stripAnsiAux : Bool → List Char → List Char
  | true, [] => []
  | true, c :: rest =>
    if c = 'm' then stripAnsiAux false rest else stripAnsiAux true rest
  | false, [] => []
  | false, '\x1b' :: '[' :: rest => stripAnsiAux true rest
  | false, c :: rest => c :: stripAnsiAux false rest

/-- Strip all ANSI SGR escape sequences from a string. -/
def stripAnsi (l : List Char) : List Char := stripAnsiAux false l

theorem stripAnsiAux_false_esc (l : List Char) :
    stripAnsiAux false ('\x1b' :: '[' :: l) = stripAnsiAux true l := by
  rw [stripAnsiAux.eq_def]
  split
  · simp_all
  · simp_all
  · simp_all
  · rename_i heqb heq
    injection heq with h1 h2
    injection h2 with h3 h4
    rw [h4]
  · rename_i hno heqb heq
    exfalso
    injection heq with h1 h2
    exact hno l h1.symm h2.symm

theorem stripAnsiAux_false_cons_ne (c : Char) (l : List Char) (hc : c ≠ '\x1b') :
    stripAnsiAux false (c :: l) = c :: stripAnsiAux false l := by
  rw [stripAnsiAux.eq_def]
  split <;> simp_all

theorem stripAnsiAux_true_cons (c : Char) (l : List Char) :
    stripAnsiAux true (c :: l) =
      if c = 'm' then stripAnsiAux false l else stripAnsiAux true l := by
  rw [stripAnsiAux.eq_def]

/-- A well-formed color escape payload: everything up to the final
char is not 'm', and the final char is 'm'. -/
def checkCode : List Char → Bool
  | [] => false
  | c :: rest => if c = 'm' then rest.isEmpty else checkCode rest

/-- A complete ANSI SGR escape sequence: ESC, '[', then a payload whose
first 'm' is its last character. -/
def isColorCode (cs : List Char) : Bool :=
  match cs with
  | '\x1b' :: '[' :: rest => checkCode rest
  | _ => false

theorem stripAnsiAux_true_code (cs : List Char) (h : checkCode cs = true) (b : List Char) :
    stripAnsiAux true (cs ++ b) = stripAnsiAux false b := by
  induction cs with
  | nil => simp [checkCode] at h
  | cons c rest ih =>
    simp only [checkCode] at h
    by_cases hm : c = 'm'
    · rw [if_pos hm] at h
      have : rest = [] := by simpa [List.isEmpty_iff] using h
      subst this hm
      simp [stripAnsiAux_true_cons]
    · rw [if_neg hm] at h
      rw [List.cons_append, stripAnsiAux_true_cons, if_neg hm]
      exact ih h

/-- "x strips to y": prefixed to anything, x contributes exactly y to
the stripped output. -/
def StripsTo (x y : List Char) : Prop :=
  ∀ b, stripAnsiAux false (x ++ b) = y ++ stripAnsiAux false b

theorem stripsTo_nil : StripsTo [] [] := fun _ => rfl

theorem stripsTo_append {x y x' y' : List Char}
    (h1 : StripsTo x y) (h2 : StripsTo x' y') : StripsTo (x ++ x') (y ++ y') := by
  intro b
  rw [List.append_assoc, h1 (x' ++ b), h2 b, List.append_assoc]

theorem stripsTo_noesc (t : List Char) (h : '\x1b' ∉ t) : StripsTo t t := by
  induction t with
  | nil => exact stripsTo_nil
  | cons c rest ih =>
    simp only [List.mem_cons, not_or] at h
    intro b
    rw [List.cons_append, stripAnsiAux_false_cons_ne c _ (Ne.symm h.1),
      ih h.2 b, List.cons_append]

theorem stripAnsiAux_nil (b : Bool) : stripAnsiAux b [] = [] := by
  cases b <;> rfl

theorem stripsTo_code (cs : List Char) (h : isColorCode cs = true) : StripsTo cs [] := by
  unfold isColorCode at h
  split at h
  · intro b
    rw [List.cons_append, List.cons_append, stripAnsiAux_false_esc,
      stripAnsiAux_true_code _ h b, List.nil_append]
  · exact absurd h (by simp)

theorem stripsTo_eq {x y : List Char} (h : StripsTo x y) : stripAnsi x = y := by
  have hb := h []
  simpa [stripAnsi, stripAnsiAux_nil] using hb

theorem lookupStr_mem (l : List (String × String)) (k v : String)
    (h : lookupStr l k = some v) : (k, v) ∈ l := by
  induction l with
  | nil => simp [lookupStr] at h
  | cons hd tl ih =>
    obtain ⟨k', v'⟩ := hd
    simp only [lookupStr] at h
    by_cases hk : k' = k
    · rw [if_pos hk] at h
      cases h
      simp [hk]
    · rw [if_neg hk] at h
      simp [ih h]

theorem colors_codes_ok : ∀ p ∈ COLORS, isColorCode p.2.data = true := by decide

theorem colorize_false (t : List Char) (color : String) :
    colorize false t color = t := by
  rcases h : lookupStr COLORS color with _ | code <;> simp [colorize, h]

theorem stripsTo_colorize (u : Bool) (t : List Char) (color : String)
    (h : '\x1b' ∉ t) : StripsTo (colorize u t color) t := by
  cases u
  · rw [colorize_false]
    exact stripsTo_noesc t h
  · rcases hl : lookupStr COLORS color with _ | code
    · simpa [colorize, hl] using stripsTo_noesc t h
    · have hcode : isColorCode code.data = true :=
        colors_codes_ok _ (lookupStr_mem COLORS color code hl)
      have hreset : isColorCode ("\x1b[0m").data = true := by decide
      have := stripsTo_append (stripsTo_code _ hcode)
        (stripsTo_append (stripsTo_noesc t h) (stripsTo_code _ hreset))
      simpa [colorize, hl] using this

theorem joinSep_cons_cons (sep x y : List Char) (xs : List (List Char)) :
    joinSep sep (x :: y :: xs) = x ++ sep ++ joinSep sep (y :: xs) := by
  rw [joinSep]
  simp

theorem stripsTo_joinSep (sep : List Char) (hsep : StripsTo sep sep) :
    ∀ {xs ys : List (List Char)}, List.Forall₂ StripsTo xs ys →
      StripsTo (joinSep sep xs) (joinSep sep ys) := by
  intro xs ys h
  induction h with
  | nil => exact stripsTo_nil
  | @cons x y xs' ys' hxy htail ih =>
    cases htail with
    | nil => exact hxy
    | @cons a c l₁ l₂ hxy2 htail2 =>
      rw [joinSep_cons_cons, joinSep_cons_cons]
      exact stripsTo_append (stripsTo_append hxy hsep) ih

theorem decDigit_ne_esc (n : Nat) : decDigit n ≠ '\x1b' := by
  unfold decDigit
  split <;> decide

theorem esc_not_mem_natCharsAux (fuel n : Nat) : '\x1b' ∉ natCharsAux fuel n := by
  induction fuel generalizing n with
  | zero => simp [natCharsAux]
  | succ f ih =>
    rw [natCharsAux]
    by_cases h : n < 10
    · rw [if_pos h]
      simp only [List.mem_singleton]
      exact fun hh => decDigit_ne_esc n hh.symm
    · rw [if_neg h]
      simp only [List.mem_append, List.mem_singleton]
      rintro (hh | hh)
      · exact ih _ hh
      · exact decDigit_ne_esc n hh.symm

theorem esc_not_mem_natChars (n : Nat) : '\x1b' ∉ natChars n :=
  esc_not_mem_natCharsAux _ _

theorem esc_not_mem_intChars (i : Int) : '\x1b' ∉ intChars i := by
  unfold intChars
  by_cases h : i < 0
  · rw [if_pos h]
    simp only [List.mem_cons]
    rintro (hh | hh)
    · exact absurd hh (by decide)
    · exact esc_not_mem_natChars _ hh
  · rw [if_neg h]
    exact esc_not_mem_natChars _

theorem esc_not_mem_status_emoji (b : Int) (c : Bool) :
    '\x1b' ∉ (get_status_emoji b c).data := by
  unfold get_status_emoji
  split
  · decide
  · split
    · split <;> decide
    · decide

theorem stripsTo_repo_part (r : RepoStatus) (hn : '\x1b' ∉ r.name.data)
    (hb : '\x1b' ∉ r.branch.data) :
    StripsTo (render_repo_part true r) (render_repo_part false r) := by
  unfold render_repo_part
  simp only [colorize_false]
  refine stripsTo_append (stripsTo_append (stripsTo_append (stripsTo_append
    (stripsTo_append ?_ ?_) ?_) ?_) ?_) ?_
  · exact stripsTo_noesc _ (esc_not_mem_status_emoji _ _)
  · exact stripsTo_colorize true _ _ hn
  · exact stripsTo_noesc [':'] (by decide)
  · exact stripsTo_colorize true _ _ hb
  · by_cases h : r.behind > 0
    · simp only [if_pos h]
      refine stripsTo_colorize true _ _ ?_
      simp only [List.mem_cons]
      rintro (hh | hh)
      · exact absurd hh (by decide)
      · exact esc_not_mem_intChars _ hh
    · simp only [if_neg h]
      exact stripsTo_nil
  · by_cases h : r.has_changes
    · simp only [if_pos h]
      exact stripsTo_colorize true ['*'] "yellow" (by decide)
    · simp only [if_neg h]
      exact stripsTo_nil

theorem stripsTo_server_part (s : DetectedServer) (hn : '\x1b' ∉ s.name.data)
    (he : '\x1b' ∉ s.emoji.data) :
    StripsTo (render_server_part true s) (render_server_part false s) := by
  unfold render_server_part
  simp only [colorize_false]
  refine stripsTo_append (stripsTo_append (stripsTo_append ?_ ?_) ?_) ?_
  · exact stripsTo_noesc _ he
  · exact stripsTo_colorize true _ _ hn
  · exact stripsTo_noesc [':'] (by decide)
  · exact stripsTo_colorize true _ _ (esc_not_mem_natChars _)

theorem forall₂_repo_parts (repos : List RepoStatus) :
    (∀ r ∈ repos, '\x1b' ∉ r.name.data ∧ '\x1b' ∉ r.branch.data) →
      List.Forall₂ StripsTo (repos.map (render_repo_part true))
        (repos.map (render_repo_part false)) := by
  induction repos with
  | nil => intro _; exact List.Forall₂.nil
  | cons r rest ih =>
    intro h
    exact List.Forall₂.cons
      (stripsTo_repo_part r (h r (by simp)).1 (h r (by simp)).2)
      (ih fun r' hr' => h r' (List.mem_cons_of_mem _ hr'))

theorem forall₂_server_parts (servers : List DetectedServer) :
    (∀ s ∈ servers, '\x1b' ∉ s.name.data ∧ '\x1b' ∉ s.emoji.data) →
      List.Forall₂ StripsTo (servers.map (render_server_part true))
        (servers.map (render_server_part false)) := by
  induction servers with
  | nil => intro _; exact List.Forall₂.nil
  | cons s rest ih =>
    intro h
    exact List.Forall₂.cons
      (stripsTo_server_part s (h s (by simp)).1 (h s (by simp)).2)
      (ih fun s' hs' => h s' (List.mem_cons_of_mem _ hs'))

theorem strip_repositories (repos : List RepoStatus)
    (h : ∀ r ∈ repos, '\x1b' ∉ r.name.data ∧ '\x1b' ∉ r.branch.data) :
    stripAnsi (render_repositories true repos) = render_repositories false repos := by
  apply stripsTo_eq
  unfold render_repositories
  exact stripsTo_append (stripsTo_noesc _ (by decide))
    (stripsTo_joinSep _ (stripsTo_noesc _ (by decide)) (forall₂_repo_parts repos h))

theorem strip_servers (servers : List DetectedServer)
    (h : ∀ s ∈ servers, '\x1b' ∉ s.name.data ∧ '\x1b' ∉ s.emoji.data) :
    stripAnsi (render_servers true servers) = render_servers false servers := by
  apply stripsTo_eq
  unfold render_servers
  exact stripsTo_append (stripsTo_noesc _ (by decide))
    (stripsTo_joinSep _ (stripsTo_noesc _ (by decide)) (forall₂_server_parts servers h))

theorem strip_of_noesc (l : List Char) (h : '\x1b' ∉ l) : stripAnsi l = l :=
  stripsTo_eq (stripsTo_noesc l h)

theorem noesc_append {a b : List Char} (ha : '\x1b' ∉ a) (hb : '\x1b' ∉ b) :
    '\x1b' ∉ a ++ b := by
  intro h
  rcases List.mem_append.mp h with h | h
  · exact ha h
  · exact hb h

theorem colorize_ne_nil (u : Bool) (text : List Char) (color : String)
    (h : text ≠ []) : colorize u text color ≠ [] := by
  cases u
  · rw [colorize_false]
    exact h
  · rcases hl : lookupStr COLORS color with _ | code
    · simpa [colorize, hl] using h
    · simp [colorize, hl]

/-- C4: the per-repository status glyph is chosen by priority
(uncommitted changes, then far behind with behind greater than 5, then
slightly behind with behind between 1 and 5, then clean), and the
rendered repository fragment appends the behind-suffix component
exactly when behind is positive and the changes-marker component
exactly when the repo is dirty. -/
theorem claim_C4_status_glyph_priority (repo : RepoStatus) (use_colors : Bool) :
    (repo.has_changes = true →
      get_status_emoji repo.behind repo.has_changes = "🟡") ∧
    (repo.has_changes = false → 5 < repo.behind →
      get_status_emoji repo.behind repo.has_changes = "🔴") ∧
    (repo.has_changes = false → 1 ≤ repo.behind → repo.behind ≤ 5 →
      get_status_emoji repo.behind repo.has_changes = "⚠️") ∧
    (repo.has_changes = false → repo.behind ≤ 0 →
      get_status_emoji repo.behind repo.has_changes = "✅") ∧
    render_repo_part use_colors repo =
      (get_status_emoji repo.behind repo.has_changes).data
        ++ colorize use_colors repo.name.data "bright_cyan"
        ++ [':']
        ++ colorize use_colors repo.branch.data (get_branch_color repo.branch.data)
        ++ (if 0 < repo.behind then colorize use_colors ('-' :: intChars repo.behind) "red"
            else [])
        ++ (if repo.has_changes then colorize use_colors ['*'] "yellow" else []) ∧
    ((if 0 < repo.behind then colorize use_colors ('-' :: intChars repo.behind) "red"
        else []) ≠ [] ↔ 0 < repo.behind) ∧
    ((if repo.has_changes then colorize use_colors ['*'] "yellow" else []) ≠ [] ↔
      repo.has_changes = true) := by
  refine ⟨?_, ?_, ?_, ?_, rfl, ?_, ?_⟩
  · intro h
    simp [get_status_emoji, h]
  · intro h1 h2
    rw [get_status_emoji, if_neg (by simp [h1]), if_pos (by omega), if_pos h2]
  · intro h1 h2 h3
    rw [get_status_emoji, if_neg (by simp [h1]), if_pos (by omega), if_neg (by omega)]
  · intro h1 h2
    rw [get_status_emoji, if_neg (by simp [h1]), if_neg (by omega)]
  · by_cases h : 0 < repo.behind
    · simp only [if_pos h]
      exact ⟨fun _ => h, fun _ => colorize_ne_nil _ _ _ (by simp)⟩
    · simp only [if_neg h]
      exact ⟨fun hc => absurd rfl hc, fun hc => absurd hc h⟩
  · by_cases h : repo.has_changes
    · simp only [if_pos h]
      exact ⟨fun _ => h, fun _ => colorize_ne_nil _ _ _ (by simp)⟩
    · simp only [if_neg h]
      refine ⟨fun hc => absurd rfl hc, fun hc => absurd hc ?_⟩
      simpa using h

/-- Witness for C4: the dirty glyph wins over behind-count at behind 7;
far/slightly-behind and clean glyphs at concrete counts. -/
theorem claim_C4_status_glyph_priority_witness :
    get_status_emoji 7 true = "🟡" ∧ get_status_emoji 7 false = "🔴" ∧
    get_status_emoji 2 false = "⚠️" ∧ get_status_emoji 0 false = "✅" := by
  have h1 := claim_C4_status_glyph_priority (RepoStatus.mk "R" "main" 7 true ".") false
  have h2 := claim_C4_status_glyph_priority (RepoStatus.mk "R" "main" 7 false ".") false
  have h3 := claim_C4_status_glyph_priority (RepoStatus.mk "R" "main" 2 false ".") false
  have h4 := claim_C4_status_glyph_priority (RepoStatus.mk "R" "main" 0 false ".") false
  exact ⟨h1.1 rfl, h2.2.1 rfl (by decide), h3.2.2.1 rfl (by decide) (by decide),
    h4.2.2.2.1 rfl (by decide)⟩

/-- C5 as stated is refuted by a branch name that itself contains the
two characters ESC-[: with colors on, the stripper consumes the color
escape that follows the branch text, so stripping the colored line does
not reproduce the uncolored line (which retains the raw ESC-[). -/
theorem claim_C5_colorless_counterexample :
    (render true true [RepoStatus.mk "R" "\x1b[" 0 false "."] []).map stripAnsi ≠
      render false true [RepoStatus.mk "R" "\x1b[" 0 false "."] [] := by decide

/-- C5 (amended): for every multiline setting, repository list and
server list whose rendered text fields (repo names and branches, server
names and emoji) contain no raw ESC character, stripping all ANSI
escape sequences from the colors-enabled output yields exactly the
colors-disabled output. -/
theorem claim_C5_colorless_content_stable (multiline : Bool)
    (repos : List RepoStatus) (servers : List DetectedServer)
    (hr : ∀ r ∈ repos, '\x1b' ∉ r.name.data ∧ '\x1b' ∉ r.branch.data)
    (hs : ∀ s ∈ servers, '\x1b' ∉ s.name.data ∧ '\x1b' ∉ s.emoji.data) :
    (render true multiline repos servers).map stripAnsi =
      render false multiline repos servers := by
  have hnum : ∀ n : Nat, '\x1b' ∉ natChars n := esc_not_mem_natChars
  cases multiline
  · rcases repos with _ | ⟨r0, rrest⟩ <;> rcases servers with _ | ⟨s0, srest⟩
    · rfl
    · show [stripAnsi ("🖥️ ".data ++ natChars (s0 :: srest).length ++ " servers".data)] =
        ["🖥️ ".data ++ natChars (s0 :: srest).length ++ " servers".data]
      rw [strip_of_noesc _
        (noesc_append (noesc_append (by decide) (hnum _)) (by decide))]
    · show [stripAnsi ("📂 ".data ++ natChars (r0 :: rrest).length ++ " repos".data)] =
        ["📂 ".data ++ natChars (r0 :: rrest).length ++ " repos".data]
      rw [strip_of_noesc _
        (noesc_append (noesc_append (by decide) (hnum _)) (by decide))]
    · show [stripAnsi
          ((("📂 ".data ++ natChars (r0 :: rrest).length ++ " repos".data)
            ++ " │ ".data)
            ++ ("🖥️ ".data ++ natChars (s0 :: srest).length ++ " servers".data))] =
        [(("📂 ".data ++ natChars (r0 :: rrest).length ++ " repos".data)
          ++ " │ ".data)
          ++ ("🖥️ ".data ++ natChars (s0 :: srest).length ++ " servers".data)]
      rw [strip_of_noesc _
        (noesc_append
          (noesc_append
            (noesc_append (noesc_append (by decide) (hnum _)) (by decide))
            (by decide))
          (noesc_append (noesc_append (by decide) (hnum _)) (by decide)))]
  · rcases repos with _ | ⟨r0, rrest⟩ <;> rcases servers with _ | ⟨s0, srest⟩
    · rfl
    · simp only [render, List.isEmpty_nil, List.isEmpty_cons, Bool.false_eq_true,
        eq_self_iff_true, if_true, if_false, List.nil_append, List.map_cons,
        List.map_nil]
      rw [strip_servers _ hs]
    · simp only [render, List.isEmpty_nil, List.isEmpty_cons, Bool.false_eq_true,
        eq_self_iff_true, if_true, if_false, List.append_nil, List.map_cons,
        List.map_nil]
      rw [strip_repositories _ hr]
    · simp only [render, List.isEmpty_cons, Bool.false_eq_true, eq_self_iff_true,
        if_true, if_false, List.cons_append, List.nil_append, List.map_cons,
        List.map_nil]
      rw [strip_repositories _ hr, strip_servers _ hs]

/-- Witness for the amended C5 at a concrete clean repo and server. -/
theorem claim_C5_colorless_content_stable_witness :
    (render true true [RepoStatus.mk "TEST" "main" 2 true "."]
        [DetectedServer.mk "Flask" 5000 "F"]).map stripAnsi =
      render false true [RepoStatus.mk "TEST" "main" 2 true "."]
        [DetectedServer.mk "Flask" 5000 "F"] :=
  claim_C5_colorless_content_stable true
    [RepoStatus.mk "TEST" "main" 2 true "."]
    [DetectedServer.mk "Flask" 5000 "F"] (by decide) (by decide)

/-! ## Git status collection (src/git.py) -/

/-- Outcome oracle for one subprocess invocation, keyed by the argument
list and the working directory: the raw stdout and whether the return
code was zero; `none` models a raised exception (timeout, missing
tool). -/
def GitOracle : Type := List String → String → Option (String × Bool)

/-- Python `str.strip()` (ASCII whitespace). -/
def stripChars (l : List Char) : List Char :=
  ((l.dropWhile Char.isWhitespace).reverse.dropWhile Char.isWhitespace).reverse

/-- `GitManager.run_git_command` (src/git.py lines 25–32): stripped
stdout plus a success flag; any exception yields an empty string and
failure. -/
def run_git_command (run : GitOracle) (cmd_args : List String) (cwd : String) :
    String × Bool :=
  match run cmd_args cwd with
  | some (out, ok) => (⟨stripChars out.data⟩, ok)
  | none => ("", false)

/-- A repository config entry `{name, path, type}` as consumed by
`get_repo_status` (the type tag is not read there). -/
structure RepoConfig where
  name : String
  path : String

/-- `Path(project_root) / repo_config["path"]` (segment normalization
of pathlib is not modelled; the path is only used as a key into the
filesystem oracle and the subprocess oracle). -/
def joinPath (a b : String) : String :=
  if startsWithChars b.data ['/'] then b else a ++ "/" ++ b

/-- `str(int(x))` digit test: Python `str.isdigit` is true iff the
string is non-empty and all digits. -/
def isDigits (s : String) : Bool := !s.data.isEmpty && s.data.all Char.isDigit

/-- Numeric value of a digit string (`int(s)` for `s.isdigit()`). -/
def parseNatChars (l : List Char) : Nat :=
  l.foldl (fun acc c => acc * 10 + (c.toNat - '0'.toNat)) 0

/-- The intermediate `branch_output` of `get_repo_status` (src/git.py
lines 42–49): symbolic-ref output when that command succeeds, else the
rev-parse output (whose own exit status is not consulted). -/
def branch_out (run : GitOracle) (repo_path : String) : String :=
  if (run_git_command run ["git", "symbolic-ref", "--short", "HEAD"] repo_path).2 = true
  then (run_git_command run ["git", "symbolic-ref", "--short", "HEAD"] repo_path).1
  else (run_git_command run ["git", "rev-parse", "--short", "HEAD"] repo_path).1

/-- The branch label (src/git.py line 50): an empty `branch_output`
falls back to "detached" (Python `branch_output or "detached"`). -/
def branch_of (run : GitOracle) (repo_path : String) : String :=
  if branch_out run repo_path = "" then "detached" else branch_out run repo_path

/-- The commits-behind step of `get_repo_status` (src/git.py lines
52–56): the parsed count when the rev-list query succeeds with all-digit
output, else 0. -/
def behind_of (run : GitOracle) (repo_path : String) : Int :=
  if (run_git_command run ["git", "rev-list", "--count", "HEAD..@\x7bu\x7d"] repo_path).2
        = true
      ∧ isDigits (run_git_command run ["git", "rev-list", "--count", "HEAD..@\x7bu\x7d"]
        repo_path).1 = true
  then (parseNatChars (run_git_command run ["git", "rev-list", "--count",
    "HEAD..@\x7bu\x7d"] repo_path).1.data : Int)
  else 0

/-- The dirty-state step of `get_repo_status` (src/git.py lines 58–60):
any non-empty (stripped) porcelain output counts as changes. -/
def has_changes_of (run : GitOracle) (repo_path : String) : Bool :=
  !(stripChars (run_git_command run ["git", "status", "--porcelain"] repo_path).1.data).isEmpty

/-- `GitManager.get_repo_status` (src/git.py lines 34–68), with the
filesystem-existence check abstracted as the oracle `fs`: absent unless
the resolved path and its ".git" marker exist, otherwise the three
independent probes assembled into a RepoStatus. -/
def get_repo_status (run : GitOracle) (fs : String → Bool)
    (repo_config : RepoConfig) (project_root : String) : Option RepoStatus :=
  let repo_path := joinPath project_root repo_config.path
  if fs repo_path && fs (repo_path ++ "/.git") then
    some { name := repo_config.name, branch := branch_of run repo_path,
           behind := behind_of run repo_path,
           has_changes := has_changes_of run repo_path, path := repo_config.path }
  else none

theorem branch_out_ok (run : GitOracle) (p : String)
    (h : (run_git_command run ["git", "symbolic-ref", "--short", "HEAD"] p).2 = true) :
    branch_out run p =
      (run_git_command run ["git", "symbolic-ref", "--short", "HEAD"] p).1 := by
  unfold branch_out
  rw [if_pos h]

theorem branch_out_fail (run : GitOracle) (p : String)
    (h : (run_git_command run ["git", "symbolic-ref", "--short", "HEAD"] p).2 = false) :
    branch_out run p =
      (run_git_command run ["git", "rev-parse", "--short", "HEAD"] p).1 := by
  unfold branch_out
  rw [if_neg (by simp [h])]

theorem get_repo_status_some (run : GitOracle) (fs : String → Bool)
    (cfg : RepoConfig) (root : String)
    (h : (fs (joinPath root cfg.path) && fs (joinPath root cfg.path ++ "/.git")) = true) :
    get_repo_status run fs cfg root =
      some { name := cfg.name, branch := branch_of run (joinPath root cfg.path),
             behind := behind_of run (joinPath root cfg.path),
             has_changes := has_changes_of run (joinPath root cfg.path),
             path := cfg.path } := by
  simp only [get_repo_status, h, if_true]

theorem get_repo_status_none (run : GitOracle) (fs : String → Bool)
    (cfg : RepoConfig) (root : String)
    (h : (fs (joinPath root cfg.path) && fs (joinPath root cfg.path ++ "/.git")) = false) :
    get_repo_status run fs cfg root = none := by
  simp only [get_repo_status, h, Bool.false_eq_true, if_false]

/-- C7: a produced RepoStatus always has a non-negative behind count,
and the count is 0 whenever the rev-list upstream query raised
(oracle `none`), exited non-zero, or returned non-numeric output. -/
theorem claim_C7_behind_nonneg (run : GitOracle) (fs : String → Bool)
    (cfg : RepoConfig) (root : String) (st : RepoStatus)
    (hst : get_repo_status run fs cfg root = some st) :
    0 ≤ st.behind ∧
    (run ["git", "rev-list", "--count", "HEAD..@\x7bu\x7d"] (joinPath root cfg.path)
        = none → st.behind = 0) ∧
    ((run_git_command run ["git", "rev-list", "--count", "HEAD..@\x7bu\x7d"]
        (joinPath root cfg.path)).2 = false → st.behind = 0) ∧
    (isDigits (run_git_command run ["git", "rev-list", "--count", "HEAD..@\x7bu\x7d"]
        (joinPath root cfg.path)).1 = false → st.behind = 0) := by
  rcases hfs : fs (joinPath root cfg.path) && fs (joinPath root cfg.path ++ "/.git") with _ | _
  · rw [get_repo_status_none run fs cfg root hfs] at hst
    cases hst
  · rw [get_repo_status_some run fs cfg root hfs] at hst
    have hb : st.behind = behind_of run (joinPath root cfg.path) := by
      cases hst
      rfl
    rw [hb]
    unfold behind_of
    refine ⟨?_, ?_, ?_, ?_⟩
    · split
      · exact Int.ofNat_nonneg _
      · exact le_refl 0
    · intro hrun
      have hrg : run_git_command run ["git", "rev-list", "--count", "HEAD..@\x7bu\x7d"]
          (joinPath root cfg.path) = ("", false) := by
        rw [run_git_command, hrun]
      rw [if_neg (by
        rw [hrg]
        rintro ⟨h1, _⟩
        simp at h1)]
    · intro hfail
      rw [if_neg (by
        rintro ⟨h1, _⟩
        rw [hfail] at h1
        simp at h1)]
    · intro hdig
      rw [if_neg (by
        rintro ⟨_, h2⟩
        rw [hdig] at h2
        simp at h2)]

/-- Witness for C7: with an oracle whose rev-list query fails, the
produced status has behind 0. -/
theorem claim_C7_behind_nonneg_witness :
    ∃ st, get_repo_status (fun _ _ => none) (fun _ => true)
        (RepoConfig.mk "R" "sub") "/p" = some st ∧ 0 ≤ st.behind ∧ st.behind = 0 := by
  refine ⟨_, rfl, ?_⟩
  have h := claim_C7_behind_nonneg (fun _ _ => none) (fun _ => true)
    (RepoConfig.mk "R" "sub") "/p" _ rfl
  exact ⟨h.1, h.2.1 rfl⟩

/-- C8 as stated is refuted when the symbolic-ref query succeeds with
empty output: the claim makes the label the (empty) short name, but the
code's `branch_output or "detached"` yields "detached". -/
theorem claim_C8_counterexample :
    (get_repo_status (fun _ _ => some ("", true)) (fun _ => true)
        (RepoConfig.mk "R" "sub") "/p").map RepoStatus.branch = some "detached" ∧
    ("detached" : String) ≠ "" := by
  constructor
  · rfl
  · decide

/-- C8 (amended): statusFor is absent — independently of the subprocess
oracle — exactly when the resolved path or its ".git" marker is
missing; otherwise the label is the symbolic-ref short name when that
query succeeds with non-empty output, else the rev-parse output when
that query succeeds with non-empty output, and "detached" when the
consulted output is empty. -/
theorem claim_C8_status_preconditions (run run2 : GitOracle) (fs : String → Bool)
    (cfg : RepoConfig) (root : String) :
    ((fs (joinPath root cfg.path) && fs (joinPath root cfg.path ++ "/.git")) = false →
      get_repo_status run fs cfg root = none ∧
      get_repo_status run fs cfg root = get_repo_status run2 fs cfg root) ∧
    (∀ st, get_repo_status run fs cfg root = some st →
      ((run_git_command run ["git", "symbolic-ref", "--short", "HEAD"]
          (joinPath root cfg.path)).2 = true →
        (run_git_command run ["git", "symbolic-ref", "--short", "HEAD"]
          (joinPath root cfg.path)).1 ≠ "" →
        st.branch = (run_git_command run ["git", "symbolic-ref", "--short", "HEAD"]
          (joinPath root cfg.path)).1) ∧
      ((run_git_command run ["git", "symbolic-ref", "--short", "HEAD"]
          (joinPath root cfg.path)).2 = false →
        (run_git_command run ["git", "rev-parse", "--short", "HEAD"]
          (joinPath root cfg.path)).2 = true →
        (run_git_command run ["git", "rev-parse", "--short", "HEAD"]
          (joinPath root cfg.path)).1 ≠ "" →
        st.branch = (run_git_command run ["git", "rev-parse", "--short", "HEAD"]
          (joinPath root cfg.path)).1) ∧
      ((run_git_command run ["git", "symbolic-ref", "--short", "HEAD"]
          (joinPath root cfg.path)).2 = true →
        (run_git_command run ["git", "symbolic-ref", "--short", "HEAD"]
          (joinPath root cfg.path)).1 = "" →
        st.branch = "detached") ∧
      ((run_git_command run ["git", "symbolic-ref", "--short", "HEAD"]
          (joinPath root cfg.path)).2 = false →
        (run_git_command run ["git", "rev-parse", "--short", "HEAD"]
          (joinPath root cfg.path)).1 = "" →
        st.branch = "detached")) := by
  constructor
  · intro h
    exact ⟨get_repo_status_none run fs cfg root h,
      by rw [get_repo_status_none run fs cfg root h,
        get_repo_status_none run2 fs cfg root h]⟩
  · intro st hst
    rcases hfs : fs (joinPath root cfg.path) && fs (joinPath root cfg.path ++ "/.git")
      with _ | _
    · rw [get_repo_status_none run fs cfg root hfs] at hst
      cases hst
    · rw [get_repo_status_some run fs cfg root hfs] at hst
      have hb : st.branch = branch_of run (joinPath root cfg.path) := by
        cases hst
        rfl
      rw [hb]
      refine ⟨?_, ?_, ?_, ?_⟩
      · intro hok hne
        unfold branch_of
        rw [branch_out_ok run _ hok, if_neg hne]
      · intro hfail hok hne
        unfold branch_of
        rw [branch_out_fail run _ hfail, if_neg hne]
      · intro hok hemp
        unfold branch_of
        rw [branch_out_ok run _ hok, if_pos hemp]
      · intro hfail hemp
        unfold branch_of
        rw [branch_out_fail run _ hfail, if_pos hemp]

/-- Witness for the amended C8: a missing path yields absence for any
two oracles, and a successful non-empty symbolic-ref yields its
output as the label. -/
theorem claim_C8_status_preconditions_witness :
    (get_repo_status (fun _ _ => some ("x", true)) (fun _ => false)
        (RepoConfig.mk "R" "sub") "/p" = none) ∧
    (get_repo_status (fun _ _ => some ("main", true)) (fun _ => true)
        (RepoConfig.mk "R" "sub") "/p").map RepoStatus.branch = some "main" := by
  constructor
  · exact ((claim_C8_status_preconditions (fun _ _ => some ("x", true))
      (fun _ _ => none) (fun _ => false) (RepoConfig.mk "R" "sub") "/p").1 rfl).1
  · have h := ((claim_C8_status_preconditions (fun _ _ => some ("main", true))
      (fun _ _ => none) (fun _ => true) (RepoConfig.mk "R" "sub") "/p").2 _ rfl).1
      rfl (by decide)
    exact congrArg some (h.trans rfl)

/-! ## Aggregation engine (src/core.py lines 28–48) -/

/-- The fixed diagnostic line returned by the engine's except-branch. -/
def setup_needed_line : List Char := "❌ Setup needed: cc-status-line --init".data

/-- `StatusLineEngine.generate_status_line`, with the three collaborator
stages abstracted as fallible computations (`Except.error` models a
raised exception): repository statuses, then server detection, then
rendering, all inside one try block whose except-branch returns exactly
the fixed setup line. -/
def generate_status_line
    (get_repos : Except String (List RepoStatus))
    (detect : Except String (List DetectedServer))
    (render_fn : List RepoStatus → List DetectedServer → Except String (List (List Char))) :
    List (List Char) :=
  match get_repos with
  | .error _ => [setup_needed_line]
  | .ok repos =>
    match detect with
    | .error _ => [setup_needed_line]
    | .ok servers =>
      match render_fn repos servers with
      | .error _ => [setup_needed_line]
      | .ok lines => lines

/-- C6: whichever collaborator stage raises, the engine returns exactly
one fixed diagnostic line (and, being a total function, never
propagates the exception); when no stage raises, it returns the
rendered lines. -/
theorem claim_C6_error_boundary (e : String)
    (detect : Except String (List DetectedServer))
    (render_fn : List RepoStatus → List DetectedServer →
      Except String (List (List Char)))
    (repos : List RepoStatus) (servers : List DetectedServer) :
    generate_status_line (Except.error e) detect render_fn = [setup_needed_line] ∧
    generate_status_line (Except.ok repos) (Except.error e) render_fn =
      [setup_needed_line] ∧
    (render_fn repos servers = Except.error e →
      generate_status_line (Except.ok repos) (Except.ok servers) render_fn =
        [setup_needed_line]) ∧
    (∀ lines, render_fn repos servers = Except.ok lines →
      generate_status_line (Except.ok repos) (Except.ok servers) render_fn = lines) := by
  refine ⟨rfl, rfl, ?_, ?_⟩
  · intro h
    simp [generate_status_line, h]
  · intro lines h
    simp [generate_status_line, h]

/-- Witness for C6: a failing render stage produces the fixed line; a
succeeding pipeline passes the rendered lines through. -/
theorem claim_C6_error_boundary_witness :
    generate_status_line (Except.ok []) (Except.ok [])
      (fun _ _ => Except.error "boom") = [setup_needed_line] ∧
    generate_status_line (Except.ok []) (Except.ok [])
      (fun _ _ => Except.ok [['o', 'k']]) = [['o', 'k']] := by
  have h := claim_C6_error_boundary "boom" (Except.ok [])
    (fun _ _ => Except.error "boom") [] []
  have h2 := claim_C6_error_boundary "boom" (Except.ok [])
    (fun _ _ => Except.ok [['o', 'k']]) [] []
  exact ⟨h.2.2.1 rfl, h2.2.2.2 [['o', 'k']] rfl⟩

/-! ## Project identity (src/config.py lines 52–97)

The path fallback hashes the resolved absolute path with
`hashlib.sha256(...).hexdigest()[:16]`.  SHA-256 is implemented here
after FIPS 180-4, which is the function `hashlib.sha256` computes;
32-bit words are naturals kept below 2^32. -/

/-- UTF-8 encoding of one code point (Python `str.encode()`). -/
def utf8Bytes (c : Nat) : List Nat :=
  if c < 0x80 then [c]
  else if c < 0x800 then [0xC0 + c / 0x40, 0x80 + c % 0x40]
  else if c < 0x10000 then
    [0xE0 + c / 0x1000, 0x80 + (c / 0x40) % 0x40, 0x80 + c % 0x40]
  else
    [0xF0 + c / 0x40000, 0x80 + (c / 0x1000) % 0x40, 0x80 + (c / 0x40) % 0x40,
     0x80 + c % 0x40]

/-- UTF-8 bytes of a string. -/
def strBytes (s : String) : List Nat :=
  (s.data.map (fun ch => utf8Bytes ch.toNat)).flatten

def add32 (a b : Nat) : Nat := (a + b) % 4294967296

def rotr (n x : Nat) : Nat := ((x >>> n) ||| (x <<< (32 - n))) % 4294967296

def ch32 (x y z : Nat) : Nat := (x &&& y) ^^^ ((x ^^^ 0xFFFFFFFF) &&& z)

def maj32 (x y z : Nat) : Nat := (x &&& y) ^^^ (x &&& z) ^^^ (y &&& z)

def bigSigma0 (x : Nat) : Nat := rotr 2 x ^^^ rotr 13 x ^^^ rotr 22 x

def bigSigma1 (x : Nat) : Nat := rotr 6 x ^^^ rotr 11 x ^^^ rotr 25 x

def smallSigma0 (x : Nat) : Nat := rotr 7 x ^^^ rotr 18 x ^^^ (x >>> 3)

def smallSigma1 (x : Nat) : Nat := rotr 17 x ^^^ rotr 19 x ^^^ (x >>> 10)

/-- The SHA-256 round constants (decimal). -/
def K : List Nat :=
  [1116352408, 1899447441, 3049323471, 3921009573,
   961987163, 1508970993, 2453635748, 2870763221,
   3624381080, 310598401, 607225278, 1426881987,
   1925078388, 2162078206, 2614888103, 3248222580,
   3835390401, 4022224774, 264347078, 604807628,
   770255983, 1249150122, 1555081692, 1996064986,
   2554220882, 2821834349, 2952996808, 3210313671,
   3336571891, 3584528711, 113926993, 338241895,
   666307205, 773529912, 1294757372, 1396182291,
   1695183700, 1986661051, 2177026350, 2456956037,
   2730485921, 2820302411, 3259730800, 3345764771,
   3516065817, 3600352804, 4094571909, 275423344,
   430227734, 506948616, 659060556, 883997877,
   958139571, 1322822218, 1537002063, 1747873779,
   1955562222, 2024104815, 2227730452, 2361852424,
   2428436474, 2756734187, 3204031479, 3329325298]

/-- The SHA-256 initial hash value (decimal). -/
def H0 : List Nat :=
  [1779033703, 3144134277, 1013904242, 2773480762,
   1359893119, 2600822924, 528734635, 1541459225]

def be64 (n : Nat) : List Nat :=
  [(n >>> 56) % 256, (n >>> 48) % 256, (n >>> 40) % 256, (n >>> 32) % 256,
   (n >>> 24) % 256, (n >>> 16) % 256, (n >>> 8) % 256, n % 256]

/-- SHA-256 message padding: 0x80, zeros to 56 mod 64, then the bit
length as eight big-endian bytes. -/
def padMsg (m : List Nat) : List Nat :=
  m ++ 0x80 :: List.replicate ((119 - (m.length % 64)) % 64) 0 ++ be64 (8 * m.length)

/-- Big-endian 32-bit words of a 64-byte chunk. -/
def toWords : List Nat → List Nat
  | b0 :: b1 :: b2 :: b3 :: rest =>
    (((b0 * 256 + b1) * 256 + b2) * 256 + b3) :: toWords rest
  | _ => []

/-- Extend the 16 chunk words to the 64-entry message schedule. -/
def extendW : Nat → List Nat → List Nat
  | 0, ws => ws
  | n + 1, ws =>
    extendW n (ws ++ [add32
      (add32 (smallSigma1 (ws.getD (ws.length - 2) 0)) (ws.getD (ws.length - 7) 0))
      (add32 (smallSigma0 (ws.getD (ws.length - 15) 0)) (ws.getD (ws.length - 16) 0))])

/-- One SHA-256 compression round on the eight-word state. -/
def compressStep (st : List Nat) (wk : Nat × Nat) : List Nat :=
  match st with
  | [a, b, c, d, e, f, g, h] =>
    [add32 (add32 (add32 (add32 h (bigSigma1 e)) (add32 (ch32 e f g) wk.2)) wk.1)
       (add32 (bigSigma0 a) (maj32 a b c)),
     a, b, c,
     add32 d (add32 (add32 (add32 h (bigSigma1 e)) (add32 (ch32 e f g) wk.2)) wk.1),
     e, f, g]
  | other => other

/-- Process one 64-byte chunk into the running hash. -/
def processChunk (h : List Nat) (chunk : List Nat) : List Nat :=
  ((h.zip (((extendW 48 (toWords chunk)).zip K).foldl compressStep h)).map
    (fun p => add32 p.1 p.2))

/-- Split into 64-byte chunks (fuel-driven; any fuel at least the
length works since every step consumes at least one byte). -/
def chunksAux : Nat → List Nat → List (List Nat)
  | 0, _ => []
  | fuel + 1, l => if l.isEmpty then [] else l.take 64 :: chunksAux fuel (l.drop 64)

def be32 (w : Nat) : List Nat :=
  [(w >>> 24) % 256, (w >>> 16) % 256, (w >>> 8) % 256, w % 256]

/-- SHA-256 digest (32 bytes) of a byte string. -/
def sha256 (msg : List Nat) : List Nat :=
  (((chunksAux (padMsg msg).length (padMsg msg)).foldl processChunk H0).map be32).flatten

def hexDigit (n : Nat) : Char :=
  match n with
  | 0 => '0' | 1 => '1' | 2 => '2' | 3 => '3' | 4 => '4' | 5 => '5' | 6 => '6'
  | 7 => '7' | 8 => '8' | 9 => '9' | 10 => 'a' | 11 => 'b' | 12 => 'c' | 13 => 'd'
  | 14 => 'e' | _ => 'f'

def hexOfBytes (bytes : List Nat) : List Char :=
  (bytes.map (fun b => [hexDigit (b / 16), hexDigit (b % 16)])).flatten

/-- `hashlib.sha256(s.encode()).hexdigest()`. -/
def sha256_hexdigest (s : String) : List Char := hexOfBytes (sha256 (strBytes s))

/-- FIPS 180-4 test vector, validating the digest implementation. -/
theorem sha256_hexdigest_abc :
    sha256_hexdigest "abc" =
      "ba7816bf8f01cfea414140de5dae2223b00361a396177a9cb410ff61f20015ad".data := by
  decide

/-- The path-derived identity (src/config.py lines 65–68):
"local-" plus the first 16 hex digits of the SHA-256 of the resolved
absolute path (path resolution itself is an external effect; its
result string is the argument). -/
def get_project_id_from_path (resolved_path : String) : String :=
  ⟨"local-".data ++ (sha256_hexdigest resolved_path).take 16⟩

/-- ASCII model of the regex class `\w` (word character). -/
def isWordChar (c : Char) : Bool := c.isAlphanum || c = '_'

/-- One step of `re.sub(r"[^\w\-.]", "-", s)`: keep word characters,
dash and dot; replace anything else with a dash. -/
def safeChar (c : Char) : Char :=
  if isWordChar c || c = '-' || c = '.' then c else '-'

/-- `re.sub(r"-+", "-", s)`: collapse runs of dashes (the Bool carries
"previous output char was a dash of a run"). -/
def collapseDashesAux : Bool → List Char → List Char
  | _, [] => []
  | prevDash, c :: rest =>
    if c = '-' then
      (if prevDash then [] else ['-']) ++ collapseDashesAux true rest
    else c :: collapseDashesAux false rest

def collapseDashes (l : List Char) : List Char := collapseDashesAux false l

/-- Python `s.strip("-")`. -/
def stripDashes (l : List Char) : List Char :=
  ((l.dropWhile (· = '-')).reverse.dropWhile (· = '-')).reverse

/-- Python `s.replace(old, new)` (all non-overlapping occurrences, left
to right; fuel-driven, any fuel at least the length works). -/
def replaceAllAux : Nat → List Char → List Char → List Char → List Char
  | 0, l, _, _ => l
  | fuel + 1, l, pat, rep =>
    match l with
    | [] => []
    | c :: rest =>
      if startsWithChars l pat && !pat.isEmpty then
        rep ++ replaceAllAux fuel (l.drop pat.length) pat rep
      else c :: replaceAllAux fuel rest pat rep

def replaceAll (l pat rep : List Char) : List Char :=
  replaceAllAux (l.length + 1) l pat rep

def endsWithChars (l pat : List Char) : Bool :=
  startsWithChars l.reverse pat.reverse

/-- The URL normalization inside `_get_git_remote_url` (src/config.py
lines 82–94): ssh-style `git@host:org/repo` and `https://host/org/repo`
to `host/org/repo`, then strip a trailing ".git". -/
def remote_transform (url : List Char) : List Char :=
  let u :=
    if startsWithChars url "git@".data then
      replaceAll (replaceAll url "git@".data []) ":".data "/".data
    else if startsWithChars url "https://".data then url.drop 8
    else url
  if endsWithChars u ".git".data then u.take (u.length - 4) else u

/-- The remote-derived identity (src/config.py lines 58–63): the
transformed URL lowercased, non-word characters replaced by dashes,
dash runs collapsed, and edge dashes stripped. -/
def normalize_remote (url : String) : String :=
  ⟨stripDashes (collapseDashes (((remote_transform url.data).map Char.toLower).map
    safeChar))⟩

/-- `ConfigManager.get_project_id` (src/config.py lines 52–68) with the
git remote query abstracted: the normalized remote when one exists,
else the path hash. -/
def get_project_id (remote : Option String) (resolved_path : String) : String :=
  match remote with
  | some url => normalize_remote url
  | none => get_project_id_from_path resolved_path

set_option maxRecDepth 100000 in
/-- C2 as stated is refuted: a git remote URL that reads
`local-<digest prefix>` normalizes to itself, so it collides with the
path-derived identity of a path with that digest. -/
theorem claim_C2_remote_path_collision :
    normalize_remote ⟨"local-".data ++ (sha256_hexdigest "/a").take 16⟩ =
      get_project_id_from_path "/a" := by decide

/-- C2 (amended): every path-derived identity carries the literal
"local-" prefix, and a remote-derived identity differs from every
path-derived identity provided the normalized remote does not itself
begin with "local-". -/
theorem claim_C2_identity_prefix_separation (url path : String) :
    (get_project_id_from_path path).data.take 6 = "local-".data ∧
    ((normalize_remote url).data.take 6 ≠ "local-".data →
      normalize_remote url ≠ get_project_id_from_path path) := by
  have h1 : (get_project_id_from_path path).data.take 6 = "local-".data := by
    show (("local-".data ++ (sha256_hexdigest path).take 16).take 6) = "local-".data
    rw [show (6 : Nat) = ("local-".data).length from rfl, List.take_left]
  refine ⟨h1, ?_⟩
  intro h heq
  apply h
  rw [heq]
  exact h1

/-- Witness for the amended C2 at a concrete https remote and path. -/
theorem claim_C2_identity_prefix_separation_witness :
    normalize_remote "https://github.com/user/repo.git" ≠
      get_project_id_from_path "/a" :=
  (claim_C2_identity_prefix_separation "https://github.com/user/repo.git" "/a").2
    (by decide)

end CCSL
